import Mathlib

/-!
Verification of the retrieval-and-disambiguation engine of a
retrieval-augmented question-answering service.

The Python sources embedded here are `src/rag/retriever.py` (possessive
stripping, tokenization, metadata-filter construction, timestamp parsing,
context assembly, retrieval orchestration) and `src/rag/service.py`
(member-name normalization, name resolution, answer extraction, question
answering orchestration).  Strings are modelled through their character
lists; Python `datetime` values are modelled as microseconds since the
POSIX epoch (an `Int`), bounded by the representable `datetime` range;
fallible code returns `Option` or `Except`.  External collaborators
(Unicode NFKC normalization, the NER model, the embedder, the vector
index, the chat-completion API, and the difflib similarity scorer) are
parameters of the embedding, mirroring the narrow contracts they are
invoked through.
-/

/-- Code points Python treats as whitespace for `str.strip`, `str.split`
and the regex class used by `re.sub` patterns on `str`. -/
def pySpaceVals : List Nat :=
  [9, 10, 11, 12, 13, 28, 29, 30, 31, 32, 133, 160, 5760,
   8192, 8193, 8194, 8195, 8196, 8197, 8198, 8199, 8200, 8201, 8202,
   8232, 8233, 8239, 8287, 12288]

/-- Whether a character is Python whitespace. -/
def isPySpace (c : Char) : Bool := pySpaceVals.contains c.toNat

/-- Drop leading Python whitespace (the front half of `str.strip`). -/
def stripLeadL (l : List Char) : List Char := l.dropWhile isPySpace

/-- Drop trailing Python whitespace (the back half of `str.strip`). -/
def stripTrailL (l : List Char) : List Char :=
  (l.reverse.dropWhile isPySpace).reverse

/-- Python `str.strip()`: drop whitespace at both ends. -/
def pyStripL (l : List Char) : List Char := stripTrailL (stripLeadL l)

/-- Python `str.strip()` on `String`. -/
def pyStripStr (s : String) : String := String.mk (pyStripL s.data)

/-- The ASCII upper/lower case table used by `str.lower` on the
characters this program manipulates (Python lowercases the full Unicode
table; the inputs of this program only exercise ASCII letters). -/
def lowerTable : List (Char × Char) :=
  [('A', 'a'), ('B', 'b'), ('C', 'c'), ('D', 'd'), ('E', 'e'), ('F', 'f'),
   ('G', 'g'), ('H', 'h'), ('I', 'i'), ('J', 'j'), ('K', 'k'), ('L', 'l'),
   ('M', 'm'), ('N', 'n'), ('O', 'o'), ('P', 'p'), ('Q', 'q'), ('R', 'r'),
   ('S', 's'), ('T', 't'), ('U', 'u'), ('V', 'v'), ('W', 'w'), ('X', 'x'),
   ('Y', 'y'), ('Z', 'z')]

/-- Lowercase one character (Python `str.lower`, ASCII part). -/
def pyLowerChar (c : Char) : Char :=
  ((lowerTable.find? (fun p => p.1 == c)).map Prod.snd).getD c

/-- Python `str.lower` over a character list. -/
def pyLowerL (l : List Char) : List Char := l.map pyLowerChar

/-- Python `str.lower` on `String`. -/
def pyLowerStr (s : String) : String := String.mk (pyLowerL s.data)

/-- Whether a character list ends with the ASCII possessive suffix
`'s` (tested on the reversed list, as the code's regex anchors at `$`). -/
def endsApostropheS (l : List Char) : Bool :=
  match l.reverse with
  | 's' :: '\'' :: _ => true
  | _ => false

/-- Whether a character list ends with the curly-quote possessive
suffix `’s` (the mis-encoded variant handled by `service.py`). -/
def endsCurlyS (l : List Char) : Bool :=
  match l.reverse with
  | 's' :: '’' :: _ => true
  | _ => false

/-- `re.sub(r"(?:'s|’s)$", "", ...)` from `service.py`'s
`_normalize_member_name`: remove one trailing possessive suffix. -/
def subPossessiveL (l : List Char) : List Char :=
  match l.reverse with
  | 's' :: '\'' :: rest => rest.reverse
  | 's' :: '’' :: rest => rest.reverse
  | _ => l

/-- `re.sub(r"\s+", " ", ...)`: collapse every whitespace run to one
space.  The flag records whether the previous character was part of a
whitespace run already emitted. -/
def collapseWsAux : Bool → List Char → List Char
  | _, [] => []
  | prevWs, c :: rest =>
    if isPySpace c then
      if prevWs then collapseWsAux true rest
      else ' ' :: collapseWsAux true rest
    else c :: collapseWsAux false rest

/-- Collapse whitespace runs in a character list. -/
def collapseWsL (l : List Char) : List Char := collapseWsAux false l

/-- `_normalize_member_name` from `service.py`:
strip, remove one trailing `'s`/`’s`, collapse whitespace runs, lowercase. -/
def normalizeMemberName (s : String) : String :=
  String.mk (pyLowerL (collapseWsL (subPossessiveL (pyStripL s.data))))

/-- Whether a character list ends with the four-character mojibake
possessive suffix `â€™s` handled by `retriever.py`. -/
def endsMojibakeS (l : List Char) : Bool :=
  match l.reverse with
  | 's' :: '™' :: '€' :: 'â' :: _ => true
  | _ => false

/-- `re.sub(r"(?:'s|â€™s)$", "", ...)` from `retriever.py`'s
`_strip_possessive` (applied after `value.strip()`). -/
def subPossessiveRetrL (l : List Char) : List Char :=
  match l.reverse with
  | 's' :: '\'' :: rest => rest.reverse
  | 's' :: '™' :: '€' :: 'â' :: rest => rest.reverse
  | _ => l

/-- `_strip_possessive` from `retriever.py`. -/
def stripPossessiveRetr (s : String) : String :=
  String.mk (subPossessiveRetrL (pyStripL s.data))

/-- Whether a character is a Python regex word character (`\w`), for the
ASCII range this program exercises. -/
def isWordChar (c : Char) : Bool :=
  (('a' ≤ c && c ≤ 'z') || ('A' ≤ c && c ≤ 'Z') ||
   ('0' ≤ c && c ≤ '9') || c == '_')

/-- Split a character list into the maximal runs satisfying `p`,
dropping the separators and empty pieces (like `re.split(r"\W+", ...)`
followed by filtering out empty tokens). -/
def runsBy (p : Char → Bool) : List Char → List (List Char)
  | [] => []
  | c :: rest =>
    if p c then
      match runsBy p rest with
      | [] => [[c]]
      | r :: rs => if rest.head?.any p then (c :: r) :: rs else [c] :: r :: rs
    else runsBy p rest

/-- `_tokenize_name` from `retriever.py`: lowercase, split on non-word
runs, drop empty tokens. -/
def tokenizeName (s : String) : List String :=
  (runsBy isWordChar (pyLowerL s.data)).map String.mk

/-- Python `str.split()` with no arguments: split on whitespace runs,
dropping empty pieces. -/
def splitWsStr (s : String) : List String :=
  (runsBy (fun c => !isPySpace c) s.data).map String.mk

/-- A Python value as it appears in vector-search metadata: the shapes
`_build_context` and `_parse_timestamp` distinguish with `isinstance`.
`vOther` stands for any value of a type none of the branches accept. -/
inductive Val where
  | vNone : Val
  | vBool (b : Bool) : Val
  | vInt (n : Int) : Val
  | vFloat (q : Rat) : Val
  | vStr (s : String) : Val
  | vDict (fields : List (String × Val)) : Val
  | vOther : Val

/-- Python truthiness of a `Val`. -/
def pyTruthy : Val → Bool
  | .vNone => false
  | .vBool b => b
  | .vInt n => n != 0
  | .vFloat q => q != 0
  | .vStr s => s != ""
  | .vDict fields => !fields.isEmpty
  | .vOther => true

/-- Python `str()` of a `Val`, as used by the f-string that renders the
`[{raw_timestamp}] ` label (the program only ever formats strings,
integers and booleans there). -/
def pyStr : Val → String
  | .vNone => "None"
  | .vBool b => if b then "True" else "False"
  | .vInt n => toString n
  | .vFloat q => toString q
  | .vStr s => s
  | .vDict _ => "dict"
  | .vOther => "object"

/-- Python `dict.get(key)` over the association-list model of a dict:
`Val.vNone` when the key is absent. -/
def dictGet (d : List (String × Val)) (k : String) : Val :=
  ((d.find? (fun p => p.1 == k)).map Prod.snd).getD Val.vNone

/-- Days from the epoch 1970-01-01 of a proleptic-Gregorian date
(the arithmetic behind Python `datetime`'s ordinal representation). -/
def civilDays (y m d : Int) : Int :=
  let y' := if m ≤ 2 then y - 1 else y
  let era := (if 0 ≤ y' then y' else y' - 399) / 400
  let yoe := y' - era * 400
  let doy := (153 * (if 2 < m then m - 3 else m + 9) + 2) / 5 + d - 1
  let doe := yoe * 365 + yoe / 4 - yoe / 100 + doy
  era * 146097 + doe - 719468

/-- Microseconds since the epoch of a wall-clock datetime. -/
def wallUs (y m d h mi s us : Int) : Int :=
  civilDays y m d * 86400000000 + (h * 3600 + mi * 60 + s) * 1000000 + us

/-- `datetime.min` (0001-01-01 00:00:00) in microseconds since epoch. -/
def dtMinUs : Int := wallUs 1 1 1 0 0 0 0

/-- `datetime.max` (9999-12-31 23:59:59.999999) in microseconds. -/
def dtMaxUs : Int := wallUs 9999 12 31 23 59 59 999999

/-- Day count of a month in the proleptic-Gregorian calendar. -/
def daysInMonth (y m : Int) : Int :=
  if m = 2 then
    if y % 4 = 0 && (y % 100 != 0 || y % 400 = 0) then 29 else 28
  else if m = 4 || m = 6 || m = 9 || m = 11 then 30
  else 31

/-- The date ranges the `datetime` constructor accepts. -/
def validDate (y m d : Int) : Bool :=
  1 ≤ y && y ≤ 9999 && 1 ≤ m && m ≤ 12 && 1 ≤ d && d ≤ daysInMonth y m

/-- The time-of-day ranges the `datetime` constructor accepts. -/
def validTime (h mi s : Int) : Bool :=
  0 ≤ h && h ≤ 23 && 0 ≤ mi && mi ≤ 59 && 0 ≤ s && s ≤ 59

/-- ASCII decimal digit test. -/
def isDigitCh (c : Char) : Bool := '0' ≤ c && c ≤ '9'

/-- Numeric value of an ASCII digit. -/
def dval (c : Char) : Nat := c.toNat - 48

/-- Parse the `YYYY-MM-DD` date prefix of an ISO string
(`_parse_isoformat_date`): exactly ten characters, digits in the digit
positions, `-` separators. -/
def parseIsoDateL : List Char → Option (Int × Int × Int)
  | [a, b, c, d, s1, e, f, s2, g, h] =>
    if isDigitCh a && isDigitCh b && isDigitCh c && isDigitCh d &&
       s1 == '-' && isDigitCh e && isDigitCh f && s2 == '-' &&
       isDigitCh g && isDigitCh h then
      some ((1000 * dval a + 100 * dval b + 10 * dval c + dval d : Int),
            (10 * dval e + dval f : Int), (10 * dval g + dval h : Int))
    else none
  | _ => none

/-- Parse `HH[:MM[:SS[.fff[fff]]]]` (`_parse_isoformat_time`'s component
parser): hour, minute, second, microsecond.  Fractions must have exactly
three or six digits. -/
def parseHMSF : List Char → Option (Int × Int × Int × Int)
  | [h1, h2] =>
    if isDigitCh h1 && isDigitCh h2 then
      some ((10 * dval h1 + dval h2 : Int), 0, 0, 0)
    else none
  | [h1, h2, ':', m1, m2] =>
    if isDigitCh h1 && isDigitCh h2 && isDigitCh m1 && isDigitCh m2 then
      some ((10 * dval h1 + dval h2 : Int), (10 * dval m1 + dval m2 : Int), 0, 0)
    else none
  | [h1, h2, ':', m1, m2, ':', s1, s2] =>
    if isDigitCh h1 && isDigitCh h2 && isDigitCh m1 && isDigitCh m2 &&
       isDigitCh s1 && isDigitCh s2 then
      some ((10 * dval h1 + dval h2 : Int), (10 * dval m1 + dval m2 : Int),
            (10 * dval s1 + dval s2 : Int), 0)
    else none
  | h1 :: h2 :: ':' :: m1 :: m2 :: ':' :: s1 :: s2 :: '.' :: frac =>
    if isDigitCh h1 && isDigitCh h2 && isDigitCh m1 && isDigitCh m2 &&
       isDigitCh s1 && isDigitCh s2 && frac.all isDigitCh then
      let f := frac.foldl (fun acc c => 10 * acc + (dval c : Int)) 0
      if frac.length = 3 then
        some ((10 * dval h1 + dval h2 : Int), (10 * dval m1 + dval m2 : Int),
              (10 * dval s1 + dval s2 : Int), f * 1000)
      else if frac.length = 6 then
        some ((10 * dval h1 + dval h2 : Int), (10 * dval m1 + dval m2 : Int),
              (10 * dval s1 + dval s2 : Int), f)
      else none
    else none
  | _ => none

/-- Split an ISO time string at the timezone marker, mirroring
`tz_pos = (tstr.find('-') + 1 or tstr.find('+') + 1)`: the first `-`
wins, else the first `+`; `true` marks a negative offset. -/
def splitTzL (t : List Char) : List Char × Option (Bool × List Char) :=
  match t.findIdx? (fun c => c == '-') with
  | some i => (t.take i, some (true, t.drop (i + 1)))
  | none =>
    match t.findIdx? (fun c => c == '+') with
    | some i => (t.take i, some (false, t.drop (i + 1)))
    | none => (t, none)

/-- Parse the timezone suffix `HH:MM[:SS[.ffffff]]` into a signed
microsecond offset.  The length must be 5, 8 or 15; the components feed
a `timedelta` so only the total magnitude is range-checked (strictly
below 24 hours, as the `timezone` constructor requires). -/
def parseTzOffset (neg : Bool) (tz : List Char) : Option Int :=
  if tz.length = 5 || tz.length = 8 || tz.length = 15 then
    match parseHMSF tz with
    | some (h, mi, s, us) =>
      let off := (h * 3600 + mi * 60 + s) * 1000000 + us
      if off ≤ 86399999999 then some (if neg then -off else off) else none
    | none => none
  else none

/-- `datetime.fromisoformat` as `_parse_timestamp` invokes it: returns
the wall-clock microseconds and, when a timezone was present, the
offset in microseconds.  `none` models `ValueError`. -/
def fromisoformatL (l : List Char) : Option (Int × Option Int) :=
  match parseIsoDateL (l.take 10) with
  | none => none
  | some (y, mo, d) =>
    if validDate y mo d then
      if l.length = 10 then some (wallUs y mo d 0 0 0 0, none)
      else
        let tstr := l.drop 11
        match splitTzL tstr with
        | (timePart, tzPart) =>
          match parseHMSF timePart with
          | none => none
          | some (h, mi, s, us) =>
            if validTime h mi s then
              match tzPart with
              | none => some (wallUs y mo d h mi s us, none)
              | some (neg, tz) =>
                match parseTzOffset neg tz with
                | some off => some (wallUs y mo d h mi s us, some off)
                | none => none
            else none
    else none

/-- Parse a 1-or-2-digit numeric field whose two-digit values must lie
in `[lo2, hi2]` and whose one-digit values must lie in `[lo1, 9]`
(mirroring the alternation-ordered regexes `strptime` compiles for
`%m`, `%d`, `%H`, `%M`, `%S`). -/
def parseNum2or1 (lo2 hi2 lo1 : Nat) : List Char → Option (Int × List Char)
  | c1 :: c2 :: rest =>
    if isDigitCh c1 && isDigitCh c2 &&
       lo2 ≤ 10 * dval c1 + dval c2 && 10 * dval c1 + dval c2 ≤ hi2 then
      some ((10 * dval c1 + dval c2 : Int), rest)
    else if isDigitCh c1 && lo1 ≤ dval c1 then
      some ((dval c1 : Int), c2 :: rest)
    else none
  | [c1] =>
    if isDigitCh c1 && lo1 ≤ dval c1 then some ((dval c1 : Int), []) else none
  | [] => none

/-- `%Y`: exactly four digits. -/
def parseY4 : List Char → Option (Int × List Char)
  | a :: b :: c :: d :: rest =>
    if isDigitCh a && isDigitCh b && isDigitCh c && isDigitCh d then
      some ((1000 * dval a + 100 * dval b + 10 * dval c + dval d : Int), rest)
    else none
  | _ => none

/-- Consume one literal character. -/
def parseLit (ch : Char) : List Char → Option (List Char)
  | c :: rest => if c == ch then some rest else none
  | [] => none

/-- Consume one-or-more whitespace characters (a literal space in a
`strptime` format matches `\s+`). -/
def parseWs1 : List Char → Option (List Char)
  | c :: rest => if isPySpace c then some (rest.dropWhile isPySpace) else none
  | [] => none

/-- `strptime` with format `"%Y-%m-%d %H:%M:%S"` (full-string match),
including the range validation the `datetime` constructor performs. -/
def strptimeYmdHMS (l : List Char) : Option Int := do
  let (y, r1) ← parseY4 l
  let r2 ← parseLit '-' r1
  let (mo, r3) ← parseNum2or1 1 12 1 r2
  let r4 ← parseLit '-' r3
  let (d, r5) ← parseNum2or1 1 31 1 r4
  let r6 ← parseWs1 r5
  let (h, r7) ← parseNum2or1 0 23 0 r6
  let r8 ← parseLit ':' r7
  let (mi, r9) ← parseNum2or1 0 59 0 r8
  let r10 ← parseLit ':' r9
  let (s, r11) ← parseNum2or1 0 59 0 r10
  if r11.isEmpty && validDate y mo d then some (wallUs y mo d h mi s 0) else none

/-- `strptime` with format `"%Y-%m-%d"`. -/
def strptimeYmd (l : List Char) : Option Int := do
  let (y, r1) ← parseY4 l
  let r2 ← parseLit '-' r1
  let (mo, r3) ← parseNum2or1 1 12 1 r2
  let r4 ← parseLit '-' r3
  let (d, r5) ← parseNum2or1 1 31 1 r4
  if r5.isEmpty && validDate y mo d then some (wallUs y mo d 0 0 0 0) else none

/-- `strptime` with format `"%m/%d/%Y %H:%M"`. -/
def strptimeMdyHM (l : List Char) : Option Int := do
  let (mo, r1) ← parseNum2or1 1 12 1 l
  let r2 ← parseLit '/' r1
  let (d, r3) ← parseNum2or1 1 31 1 r2
  let r4 ← parseLit '/' r3
  let (y, r5) ← parseY4 r4
  let r6 ← parseWs1 r5
  let (h, r7) ← parseNum2or1 0 23 0 r6
  let r8 ← parseLit ':' r7
  let (mi, r9) ← parseNum2or1 0 59 0 r8
  if r9.isEmpty && validDate y mo d then some (wallUs y mo d h mi 0 0) else none

/-- `strptime` with format `"%m/%d/%Y"`. -/
def strptimeMdy (l : List Char) : Option Int := do
  let (mo, r1) ← parseNum2or1 1 12 1 l
  let r2 ← parseLit '/' r1
  let (d, r3) ← parseNum2or1 1 31 1 r2
  let r4 ← parseLit '/' r3
  let (y, r5) ← parseY4 r4
  if r5.isEmpty && validDate y mo d then some (wallUs y mo d 0 0 0 0) else none

/-- The fallback-format loop of `_parse_timestamp`: first format that
parses wins; all failing yields `None`. -/
def strptimeFallbacks (l : List Char) : Option Int :=
  match strptimeYmdHMS l with
  | some t => some t
  | none =>
    match strptimeYmd l with
    | some t => some t
    | none =>
      match strptimeMdyHM l with
      | some t => some t
      | none => strptimeMdy l

/-- `candidate.replace("Z", "+00:00")`. -/
def replaceZ (l : List Char) : List Char :=
  (l.map (fun c => if c == 'Z' then "+00:00".data else [c])).flatten

/-- `datetime.fromtimestamp(sec, tz=utc)` range check for an integral
number of POSIX seconds: out-of-range raises, which the numeric branch
catches and maps to `None`. -/
def fromTimestampSec (n : Int) : Option Int :=
  if dtMinUs ≤ n * 1000000 && n * 1000000 ≤ dtMaxUs then some (n * 1000000)
  else none

/-- `datetime.fromtimestamp` for a float modelled as an exact rational:
round to microseconds, then range-check (IEEE-754 rounding of the float
itself is outside this model; the program's claims only exercise
integral timestamps). -/
def fromTimestampRat (q : Rat) : Option Int :=
  let us := ⌊q * 1000000 + 1 / 2⌋
  if dtMinUs ≤ us && us ≤ dtMaxUs then some us else none

/-- The Python exceptions `_parse_timestamp` can let escape or that the
orchestration raises. -/
inductive PyErr where
  | valueError : PyErr
  | overflowError : PyErr
deriving DecidableEq

/-- `_parse_timestamp` from `retriever.py`.  `Except.error` models an
exception escaping the function: the ISO branch guards only against
`ValueError`, so the `OverflowError` that `astimezone` raises when the
offset-adjusted value falls outside the `datetime` range propagates. -/
def parseTimestamp : Val → Except PyErr (Option Int)
  | .vNone => .ok none
  | .vBool b => .ok (fromTimestampSec (if b then 1 else 0))
  | .vInt n => .ok (fromTimestampSec n)
  | .vFloat q => .ok (fromTimestampRat q)
  | .vStr s =>
    let candidate := pyStripL s.data
    if candidate.isEmpty then .ok none
    else
      let candidateIso := replaceZ candidate
      match fromisoformatL candidateIso with
      | some (w, none) => .ok (some w)
      | some (w, some off) =>
        let r := w - off
        if dtMinUs ≤ r && r ≤ dtMaxUs then .ok (some r)
        else .error .overflowError
      | none => .ok (strptimeFallbacks candidate)
  | .vDict _ => .ok none
  | .vOther => .ok none

/-- A vector-search match as `_build_context` receives it: either a
dict (read with `.get("metadata")`) or an object (read with
`getattr(match, "metadata", None)`). -/
inductive PyMatch where
  | fromDict (d : List (String × Val)) : PyMatch
  | fromObj (metadata : Option Val) : PyMatch

/-- The metadata value `_build_context` extracts from a match. -/
def matchMetadata : PyMatch → Val
  | .fromDict d => dictGet d "metadata"
  | .fromObj m => m.getD Val.vNone

/-- `metadata.get("text") or metadata.get("message")`. -/
def textOf (md : List (String × Val)) : Val :=
  let t := dictGet md "text"
  if pyTruthy t then t else dictGet md "message"

/-- `user_name.strip() if isinstance(user_name, str) else "Unknown member"`. -/
def displayUser (md : List (String × Val)) : String :=
  match dictGet md "user_name" with
  | .vStr u => pyStripStr u
  | _ => "Unknown member"

/-- `f"[{raw_timestamp}] " if raw_timestamp else ""`: the label is
emitted only when the raw timestamp is truthy. -/
def timestampLabel (raw : Val) : String :=
  if pyTruthy raw then "[" ++ pyStr raw ++ "] " else ""

/-- One element of the `ordered` list of `_build_context`. -/
structure CtxEntry where
  parsed : Option Int
  idx : Nat
  line : String

/-- One element of the `snippets` list of `_build_context`. -/
structure Snippet where
  timestamp : Val
  parsed_timestamp : Option Int
  user_name : Val
  text : String

/-- The accumulation loop of `_build_context`: walk the matches with
their indices, skip those without dict metadata or without non-blank
string text, and produce the `ordered` entries and the `snippets`, both
in input order.  A timestamp-parsing exception aborts the loop. -/
def buildEntries : List PyMatch → Nat → Except PyErr (List CtxEntry × List Snippet)
  | [], _ => .ok ([], [])
  | m :: rest, idx =>
    match matchMetadata m with
    | .vDict md =>
      match textOf md with
      | .vStr s =>
        if pyStripStr s == "" then buildEntries rest (idx + 1)
        else do
          let raw := dictGet md "timestamp"
          let parsed ← parseTimestamp raw
          let line := timestampLabel raw ++ displayUser md ++ ": " ++ pyStripStr s
          let (es, ss) ← buildEntries rest (idx + 1)
          .ok (⟨parsed, idx, line⟩ :: es,
               ⟨raw, parsed, dictGet md "user_name", pyStripStr s⟩ :: ss)
      | _ => buildEntries rest (idx + 1)
    | _ => buildEntries rest (idx + 1)

/-- The sort key `(item[0] or datetime.max, item[1])`: a `None` parsed
timestamp is replaced by `datetime.max`. -/
def entryKey (e : CtxEntry) : Int × Nat := (e.parsed.getD dtMaxUs, e.idx)

/-- Lexicographic comparison of sort keys. -/
def keyLE (a b : CtxEntry) : Bool :=
  decide ((entryKey a).1 < (entryKey b).1) ||
  ((entryKey a).1 == (entryKey b).1 && decide ((entryKey a).2 ≤ (entryKey b).2))

/-- Insert an entry into a key-sorted list. -/
def insertSorted (e : CtxEntry) : List CtxEntry → List CtxEntry
  | [] => [e]
  | x :: xs => if keyLE e x then e :: x :: xs else x :: insertSorted e xs

/-- Sort entries by key (the effect of `ordered.sort(key=...)`; the key
is injective because indices are distinct, so any sort agrees). -/
def sortEntries : List CtxEntry → List CtxEntry
  | [] => []
  | e :: es => insertSorted e (sortEntries es)

/-- `_build_context` from `retriever.py`: build entries and snippets,
sort the entries, truncate both to `top_k`, join the sorted lines with
blank lines.  The snippets are truncated in input order, not re-sorted. -/
def buildContext (ms : List PyMatch) (topK : Nat) :
    Except PyErr (String × List Snippet) :=
  match buildEntries ms 0 with
  | .error e => .error e
  | .ok (entries, snippets) =>
    .ok (String.intercalate "\n\n" (((sortEntries entries).take topK).map CtxEntry.line),
         snippets.take topK)

/-- One clause of the metadata filter: either
`{"user_name_normalized": {"$eq": value}}` or
`{"user_name_tokens": {"$in": [token]}}`. -/
inductive FilterClause where
  | eqNormalized (value : String) : FilterClause
  | inTokens (token : String) : FilterClause
deriving DecidableEq

/-- The filter `_build_metadata_filter` returns: a bare clause, or an
explicit `{"$and": [...]}` conjunction. -/
inductive MetadataFilter where
  | single (c : FilterClause) : MetadataFilter
  | conj (cs : List FilterClause) : MetadataFilter
deriving DecidableEq

/-- `_strip_possessive(target_name).lower().strip()`. -/
def normalizedTarget (t : String) : String :=
  pyStripStr (pyLowerStr (stripPossessiveRetr t))

/-- The clause list `_build_metadata_filter` assembles: an equality
clause when the normalized name is non-empty, then one membership
clause per token. -/
def filterClauses (t : String) : List FilterClause :=
  (if normalizedTarget t ≠ "" then [FilterClause.eqNormalized (normalizedTarget t)]
   else []) ++
  (tokenizeName (normalizedTarget t)).map FilterClause.inTokens

/-- `_build_metadata_filter` from `retriever.py`.  A falsy target
(absent or empty) yields no filter; zero clauses yield no filter; one
clause is returned unwrapped; two or more are wrapped in `$and`. -/
def buildMetadataFilter : Option String → Option MetadataFilter
  | none => none
  | some t =>
    if t == "" then none
    else
      match filterClauses t with
      | [] => none
      | [c] => some (.single c)
      | cs => some (.conj cs)

/-- `MemberResolution` from `service.py`. -/
structure MemberResolution where
  display_name : Option String
  normalized_filter : Option String
  error : Option String
deriving DecidableEq

/-- Lookup in the normalized-name registry (`Dict[str, str]` modelled
as an association list in insertion order). -/
def lookupStr (m : List (String × String)) (k : String) : Option String :=
  (m.find? (fun p => p.1 == k)).map Prod.snd

/-- `self.first_name_index.get(first_token, [])`. -/
def firstIndexGet (ix : List (String × List String)) (k : String) : List String :=
  ((ix.find? (fun p => p.1 == k)).map Prod.snd).getD []

/-- The per-request state of `QAService` that name resolution reads:
the registry maps, and the difflib `get_close_matches` collaborator
(`n=5`, `cutoff=0.5`), which the spec leaves implementation-agnostic. -/
structure ServiceState where
  known_names_map : List (String × String)
  first_name_index : List (String × List String)
  closeMatches : String → List String → List String
  topK : Nat
  systemPrompt : String

/-- `QAService._suggest_names`: no suggestions for an empty candidate
or an empty registry; otherwise rank the registry's normalized keys by
similarity and map the winners back to display names. -/
def suggestNames (st : ServiceState) (normalized : String) : List String :=
  if normalized == "" || st.known_names_map.isEmpty then []
  else
    let candidates := st.known_names_map.map Prod.fst
    (st.closeMatches normalized candidates).map
      (fun m => (lookupStr st.known_names_map m).getD "")

/-- `QAService._format_invalid_name_message`. -/
def formatInvalidNameMessage (suggestions : List String) : String :=
  if suggestions.isEmpty then "Enter a valid name. No close matches found."
  else "Enter a valid name. Closest matches: " ++ String.intercalate ", " suggestions

/-- `QAService._resolve_member_name`: no candidate resolves to the
empty resolution; an empty registry trusts the extractor; an exact
normalized-key hit wins; else an unambiguous first-token hit wins; else
fuzzy suggestions are packed into an error message. -/
def resolveMemberName (st : ServiceState) (detected : Option String) : MemberResolution :=
  match detected with
  | none => ⟨none, none, none⟩
  | some name =>
    if name == "" then ⟨none, none, none⟩
    else
      let normalized := normalizeMemberName name
      if st.known_names_map.isEmpty then ⟨some name, some normalized, none⟩
      else
        match lookupStr st.known_names_map normalized with
        | some display => ⟨some display, some normalized, none⟩
        | none =>
          let tokens := splitWsStr normalized
          match tokens with
          | firstToken :: _ =>
            match firstIndexGet st.first_name_index firstToken with
            | [m] => ⟨some m, some (normalizeMemberName m), none⟩
            | _ =>
              ⟨none, none,
               some (formatInvalidNameMessage (suggestNames st normalized))⟩
          | [] =>
            ⟨none, none,
             some (formatInvalidNameMessage (suggestNames st normalized))⟩

/-- The rightmost index at which `needle` occurs in `hay`
(Python `str.rfind`, `-1` becoming `none`). -/
def rfindL (hay needle : List Char) : Option Nat :=
  ((List.range (hay.length + 1)).filter
    (fun i => needle.isPrefixOf (hay.drop i))).getLast?

/-- `QAService._extract_final_answer`: take the trimmed remainder after
the last case-insensitive `"answer:"`; fall back to the full trimmed
response when the marker is absent or the remainder trims to empty. -/
def extractFinalAnswer (raw : String) : String :=
  if raw == "" then raw
  else
    match rfindL (pyLowerL raw.data) "answer:".data with
    | some i =>
      let extracted := pyStripStr (String.mk (raw.data.drop (i + 7)))
      if extracted != "" then extracted else pyStripStr raw
    | none => pyStripStr raw

/-- `_normalize_question`'s quote replacements (applied after the NFKC
collaborator): smart quotes and the replacement character become plain
ASCII quotes. -/
def replaceQuoteChar (c : Char) : Char :=
  if c == '’' || c == '‘' || c == '′' || c == 'ʼ' || c == Char.ofNat 0xfffd then '\''
  else if c == '“' || c == '”' then '"'
  else c

/-- The punctuation class stripped from the front of a question before
NER (`_strip_question_prefix`'s regex). -/
def isLeadPunct (c : Char) : Bool :=
  isPySpace c || c == '?' || c == '!' || c == '.' || c == ',' || c == ':' ||
  c == ';' || c == '-' || c == '—' || c == '–' || c == '"' || c == '\'' ||
  c == Char.ofNat 96

/-- `_strip_question_prefix`: drop the leading punctuation run, but
return the input unchanged when that would leave nothing. -/
def stripLeadingPunct (s : String) : String :=
  let stripped := s.data.dropWhile isLeadPunct
  if stripped.isEmpty then s else String.mk stripped

/-- The events this embedding records when an external collaborator is
invoked, to state which calls an execution performs. -/
inductive CallEvent where
  | nerCall (text : String) : CallEvent
  | encodeCall (text : String) : CallEvent
  | queryCall (topK : Nat) (filt : Option MetadataFilter) : CallEvent
  | groqCall (userContent : String) : CallEvent

/-- Whether an event is the NER collaborator call. -/
def CallEvent.isNer : CallEvent → Bool
  | .nerCall _ => true
  | _ => false

/-- The external collaborators of the engine, as the spec's interface
contracts: NFKC normalization, the entity recognizer, the embedder, the
vector search, the chat completion, and the user-template renderer. -/
structure Collab where
  nfkc : String → String
  ents : String → List (String × String)
  encode : String → List Int
  query : List Int → Nat → Option MetadataFilter → List PyMatch
  chat : String → String → String
  renderUser : String → String → String → String → String → String

/-- `_normalize_question` from `retriever.py`. -/
def normalizeQuestion (c : Collab) (q : String) : String :=
  String.mk ((c.nfkc q).data.map replaceQuoteChar)

/-- `_extract_target_name`: the first PERSON entity, possessive-stripped
and trimmed; `None` when absent or empty. -/
def extractTargetName (c : Collab) (text : String) : Option String :=
  match (c.ents text).find? (fun p => p.2 == "PERSON") with
  | none => none
  | some ent =>
    let candidate := pyStripStr (stripPossessiveRetr ent.1)
    if candidate == "" then none else some candidate

/-- `RetrievalEngine.parse_question`, with the call log of collaborator
invocations it performs: normalize, reject an empty question
(`ValueError`), run NER on the punctuation-stripped copy. -/
def parseQuestionLog (c : Collab) (q : String) :
    Except PyErr (String × Option String) × List CallEvent :=
  let normalized := pyStripStr (normalizeQuestion c q)
  if normalized == "" then (.error .valueError, [])
  else
    let nerReady := stripLeadingPunct normalized
    (.ok (normalized, extractTargetName c nerReady), [.nerCall nerReady])

/-- `RetrievalResult` from `retriever.py`.  The source's `matches`
field is called `matchList` here because `matches` is a reserved word
in Lean. -/
structure RetrievalResult where
  question : String
  context : String
  matchList : List PyMatch
  snippets : List Snippet
  target_name : Option String
  metadata_filter : Option MetadataFilter
  top_k : Nat

/-- `RetrievalEngine.retrieve` with its call log: re-parse the
question, let a truthy override take precedence over the extracted
name, embed, build the filter, query with the over-fetch floor
`max(top_k, 20)`, and assemble the context. -/
def retrieveLog (c : Collab) (st : ServiceState) (question : String)
    (override : Option String) :
    Except PyErr RetrievalResult × List CallEvent :=
  match parseQuestionLog c question with
  | (.error e, log) => (.error e, log)
  | (.ok (q, extracted), log) =>
    let target := if (override.getD "") != "" then override else extracted
    let vec := c.encode q
    let filt := buildMetadataFilter target
    let ms := c.query vec (max st.topK 20) filt
    let log' := log ++ [.encodeCall q, .queryCall (max st.topK 20) filt]
    match buildContext ms st.topK with
    | .error e => (.error e, log')
    | .ok (ctx, snips) =>
      (.ok ⟨q, ctx, ms, snips, target, filt, st.topK⟩, log')

/-- `QAService._build_context_summary`: the member-name label, the
latest-activity label built from the LAST snippet with a 160-character
preview, and the snippet count. -/
def buildContextSummary (r : RetrievalResult) : String × String × String :=
  let memberName :=
    if (r.target_name.getD "") != "" then r.target_name.getD ""
    else "Name not explicitly mentioned; assume the member in the question."
  let latest :=
    match r.snippets.getLast? with
    | none => "No activity found."
    | some last =>
      let ts := if pyTruthy last.timestamp then pyStr last.timestamp
                else "timestamp not provided"
      let text := pyStripStr last.text
      let preview := if text.length ≤ 160 then text
                     else String.mk (text.data.take 157) ++ "..."
      if text != "" then ts ++ " - " ++ preview else ts
  (memberName, latest, toString r.snippets.length)

/-- The user-prompt content `_call_groq` renders: the summary variables
and the context section (with the explicit no-context marker) fed to
the template collaborator. -/
def renderUserContent (c : Collab) (r : RetrievalResult) : String :=
  let contextSection := if r.context != "" then r.context
                        else "No relevant context was retrieved."
  match buildContextSummary r with
  | (memberName, latest, count) =>
    c.renderUser memberName latest count contextSection r.question

/-- The observable outcome of one `QAService.get_answer` run: the
returned answer or escaped exception, the collaborator calls made, the
`RetrievalResult` as constructed by `retrieve`, and the (possibly
mutated) one used for prompt building. -/
structure AnswerTrace where
  result : Except PyErr String
  calls : List CallEvent
  constructed : Option RetrievalResult
  promptStage : Option RetrievalResult

/-- `QAService.get_answer`: parse, resolve; a truthy resolution error
returns immediately; otherwise retrieve with the resolved normalized
filter as override, overwrite `target_name` with a truthy resolved
display name, and generate.  The chat collaborator is modelled as
returning content (its HTTP failure modes are surfaced errors the
claims do not exercise). -/
def getAnswerT (c : Collab) (st : ServiceState) (question : String) : AnswerTrace :=
  match parseQuestionLog c question with
  | (.error e, log) => ⟨.error e, log, none, none⟩
  | (.ok (normQ, detected), log) =>
    let res := resolveMemberName st detected
    if (res.error.getD "") != "" then ⟨.ok (res.error.getD ""), log, none, none⟩
    else
      match retrieveLog c st normQ res.normalized_filter with
      | (.error e, rlog) => ⟨.error e, log ++ rlog, none, none⟩
      | (.ok r, rlog) =>
        let r' := if (res.display_name.getD "") != ""
                  then { r with target_name := res.display_name } else r
        let userContent := renderUserContent c r'
        let rawResp := c.chat st.systemPrompt userContent
        ⟨.ok (extractFinalAnswer rawResp),
         log ++ rlog ++ [.groqCall userContent], some r, some r'⟩

/-! ### Structural lemmas about the string pipeline -/

/-- A list does not start with whitespace. -/
def noLeadWsB : List Char → Bool
  | [] => true
  | c :: _ => !isPySpace c

/-- A list does not end with whitespace. -/
def endsWsL (l : List Char) : Bool :=
  match l.reverse with
  | c :: _ => isPySpace c
  | [] => false

/-- Collapsed form: every whitespace character is a single space not
preceded by one (the flag tracks whether the previous character was
whitespace). -/
def collapsedB : Bool → List Char → Bool
  | _, [] => true
  | prevWs, c :: rest =>
    if isPySpace c then ((c == ' ') && !prevWs) && collapsedB true rest
    else collapsedB false rest

theorem lowerTable_no_space :
    lowerTable.all (fun p => !isPySpace p.1 && !isPySpace p.2) = true := by decide

theorem lowerTable_snd_not_key :
    lowerTable.all (fun p => (lowerTable.find? (fun q => q.1 == p.2)).isNone) = true := by
  decide

theorem pyLowerChar_space (c : Char) : isPySpace (pyLowerChar c) = isPySpace c := by
  unfold pyLowerChar
  cases hf : lowerTable.find? (fun p => p.1 == c) with
  | none => rfl
  | some p =>
    have hp := List.find?_some hf
    have hm : p ∈ lowerTable := List.mem_of_find?_eq_some hf
    have hns := List.all_eq_true.mp lowerTable_no_space p hm
    simp only [Bool.and_eq_true, Bool.not_eq_true'] at hns
    have hc : p.1 = c := by simpa using hp
    simp [hns.1, hns.2, ← hc]

theorem pyLowerChar_of_space (c : Char) (h : isPySpace c = true) :
    pyLowerChar c = c := by
  unfold pyLowerChar
  cases hf : lowerTable.find? (fun p => p.1 == c) with
  | none => rfl
  | some p =>
    have hp := List.find?_some hf
    have hm : p ∈ lowerTable := List.mem_of_find?_eq_some hf
    have hns := List.all_eq_true.mp lowerTable_no_space p hm
    simp only [Bool.and_eq_true, Bool.not_eq_true'] at hns
    have hc : p.1 = c := by simpa using hp
    rw [hc] at hns
    exact absurd h (by simp [hns.1])

theorem pyLowerChar_idem (c : Char) :
    pyLowerChar (pyLowerChar c) = pyLowerChar c := by
  by_cases hf : (lowerTable.find? (fun p => p.1 == c)).isNone
  · have h0 : lowerTable.find? (fun p => p.1 == c) = none := by
      simpa [Option.isNone_iff_eq_none] using hf
    have h1 : pyLowerChar c = c := by unfold pyLowerChar; rw [h0]; rfl
    rw [h1, h1]
  · have hs : (lowerTable.find? (fun p => p.1 == c)).isSome = true := by
      cases h0 : lowerTable.find? (fun p => p.1 == c) with
      | none => exact absurd (by simp [h0]) hf
      | some p => rfl
    rcases Option.isSome_iff_exists.mp hs with ⟨p, hp⟩
    have hm : p ∈ lowerTable := List.mem_of_find?_eq_some hp
    have h1 : pyLowerChar c = p.2 := by unfold pyLowerChar; rw [hp]; rfl
    have h2 : lowerTable.find? (fun q => q.1 == p.2) = none := by
      have := List.all_eq_true.mp lowerTable_snd_not_key p hm
      simpa [Option.isNone_iff_eq_none] using this
    rw [h1]
    unfold pyLowerChar
    rw [h2]
    rfl

theorem pyLowerL_idem (l : List Char) : pyLowerL (pyLowerL l) = pyLowerL l := by
  induction l with
  | nil => rfl
  | cons c r ih =>
    simp only [pyLowerL, List.map_cons] at *
    rw [pyLowerChar_idem]
    exact congrArg _ (by simpa [pyLowerL] using ih)

theorem stripLeadL_noLead (l : List Char) : noLeadWsB (stripLeadL l) = true := by
  induction l with
  | nil => rfl
  | cons c r ih =>
    by_cases h : isPySpace c = true
    · simpa [stripLeadL, List.dropWhile_cons, h] using ih
    · have h' : isPySpace c = false := by simpa using h
      simp [stripLeadL, List.dropWhile_cons, h', noLeadWsB]

theorem noLeadWsB_append_left (m t : List Char)
    (h : noLeadWsB (m ++ t) = true) : noLeadWsB m = true := by
  cases m with
  | nil => rfl
  | cons c r => simpa [noLeadWsB] using h

theorem stripTrailL_as_prefix (l : List Char) :
    ∃ t, l = stripTrailL l ++ t := by
  rcases List.dropWhile_suffix (l := l.reverse) (p := isPySpace) with ⟨t, ht⟩
  refine ⟨t.reverse, ?_⟩
  have : l.reverse.reverse = (t ++ l.reverse.dropWhile isPySpace).reverse := by
    rw [ht]
  simpa [stripTrailL] using this

theorem stripTrailL_noLead (l : List Char) (h : noLeadWsB l = true) :
    noLeadWsB (stripTrailL l) = true := by
  rcases stripTrailL_as_prefix l with ⟨t, ht⟩
  exact noLeadWsB_append_left _ _ (ht ▸ h)

theorem subPossessiveL_as_prefix (l : List Char) :
    ∃ t, l = subPossessiveL l ++ t := by
  unfold subPossessiveL
  split
  · next rest heq =>
    refine ⟨['\'', 's'], ?_⟩
    have : l.reverse.reverse = ('s' :: '\'' :: rest).reverse := by rw [heq]
    simpa using this
  · next rest heq =>
    refine ⟨['’', 's'], ?_⟩
    have : l.reverse.reverse = ('s' :: '’' :: rest).reverse := by rw [heq]
    simpa using this
  · exact ⟨[], by simp⟩

theorem subPossessiveL_noLead (l : List Char) (h : noLeadWsB l = true) :
    noLeadWsB (subPossessiveL l) = true := by
  rcases subPossessiveL_as_prefix l with ⟨t, ht⟩
  exact noLeadWsB_append_left _ _ (ht ▸ h)

theorem collapseWsL_noLead (l : List Char) (h : noLeadWsB l = true) :
    noLeadWsB (collapseWsL l) = true := by
  cases l with
  | nil => rfl
  | cons c r =>
    have hc : isPySpace c = false := by simpa [noLeadWsB, Bool.not_eq_true'] using h
    simp [collapseWsL, collapseWsAux, hc, noLeadWsB]

theorem pyLowerL_noLead (l : List Char) (h : noLeadWsB l = true) :
    noLeadWsB (pyLowerL l) = true := by
  cases l with
  | nil => rfl
  | cons c r =>
    have hc : isPySpace c = false := by simpa [noLeadWsB, Bool.not_eq_true'] using h
    simp [pyLowerL, noLeadWsB, pyLowerChar_space, hc]

theorem collapseWsAux_collapsed (l : List Char) :
    ∀ b, collapsedB b (collapseWsAux b l) = true := by
  induction l with
  | nil => intro b; rfl
  | cons c r ih =>
    intro b
    by_cases h : isPySpace c = true
    · cases b with
      | true => simpa [collapseWsAux, h] using ih true
      | false =>
        have : isPySpace ' ' = true := by decide
        simpa [collapseWsAux, h, collapsedB, this] using ih true
    · simp only [collapseWsAux, h, if_false, Bool.false_eq_true]
      simpa [collapsedB, h] using ih false

theorem collapseWsAux_fixed (l : List Char) :
    ∀ b, collapsedB b l = true → collapseWsAux b l = l := by
  induction l with
  | nil => intro b _; rfl
  | cons c r ih =>
    intro b h
    by_cases hc : isPySpace c = true
    · simp only [collapsedB, hc, if_true, Bool.and_eq_true, beq_iff_eq,
                 Bool.not_eq_true'] at h
      rcases h with ⟨⟨hsp, hb⟩, hrest⟩
      subst hb
      rw [show collapseWsAux false (c :: r) = ' ' :: collapseWsAux true r by
            simp [collapseWsAux, hc], hsp, ih true hrest]
    · have hc' : isPySpace c = false := by simpa using hc
      simp only [collapsedB, hc', if_false, Bool.false_eq_true] at h
      simp [collapseWsAux, hc', ih false h]

theorem pyLowerL_collapsed (l : List Char) :
    ∀ b, collapsedB b l = true → collapsedB b (pyLowerL l) = true := by
  induction l with
  | nil => intro b _; rfl
  | cons c r ih =>
    intro b h
    by_cases hc : isPySpace c = true
    · simp only [collapsedB, hc, if_true, Bool.and_eq_true, beq_iff_eq,
                 Bool.not_eq_true'] at h
      rcases h with ⟨⟨hsp, hb⟩, hrest⟩
      have hlc : pyLowerChar c = c := pyLowerChar_of_space c hc
      simp only [pyLowerL, List.map_cons, hlc]
      simp [collapsedB, hc, hsp, hb]
      simpa [pyLowerL] using ih true hrest
    · have hc' : isPySpace c = false := by simpa using hc
      simp only [collapsedB, hc', if_false, Bool.false_eq_true] at h
      simp only [pyLowerL, List.map_cons]
      have hlc : isPySpace (pyLowerChar c) = false := by
        rw [pyLowerChar_space]; exact hc'
      simp only [collapsedB, hlc, if_false, Bool.false_eq_true]
      simpa [pyLowerL] using ih false h

theorem stripLeadL_fixed (l : List Char) (h : noLeadWsB l = true) :
    stripLeadL l = l := by
  cases l with
  | nil => rfl
  | cons c r =>
    have hc : isPySpace c = false := by simpa [noLeadWsB, Bool.not_eq_true'] using h
    simp [stripLeadL, List.dropWhile_cons, hc]

theorem stripTrailL_fixed (l : List Char) (h : endsWsL l = false) :
    stripTrailL l = l := by
  unfold endsWsL at h
  unfold stripTrailL
  cases hr : l.reverse with
  | nil =>
    have : l = [] := by simpa using congrArg List.reverse hr
    simp [this]
  | cons c r =>
    rw [hr] at h
    have h' : isPySpace c = false := h
    rw [List.dropWhile_cons, h']
    simp only [Bool.false_eq_true, if_false]
    have h2 : l.reverse.reverse = (c :: r).reverse := by rw [hr]
    simpa using h2.symm

theorem subPossessiveL_fixed (l : List Char)
    (h1 : endsApostropheS l = false) (h2 : endsCurlyS l = false) :
    subPossessiveL l = l := by
  unfold subPossessiveL
  split
  · next rest heq =>
    have ht : endsApostropheS l = true := by unfold endsApostropheS; rw [heq]; rfl
    rw [h1] at ht; cases ht
  · next rest heq =>
    have ht : endsCurlyS l = true := by unfold endsCurlyS; rw [heq]; rfl
    rw [h2] at ht; cases ht
  · rfl

theorem normalizeMemberName_data (x : String) :
    (normalizeMemberName x).data =
      pyLowerL (collapseWsL (subPossessiveL (pyStripL x.data))) := rfl

theorem normalizeMemberName_noLead (x : String) :
    noLeadWsB (normalizeMemberName x).data = true := by
  rw [normalizeMemberName_data]
  exact pyLowerL_noLead _ (collapseWsL_noLead _ (subPossessiveL_noLead _
    (stripTrailL_noLead _ (stripLeadL_noLead _))))

theorem normalizeMemberName_collapsed (x : String) :
    collapsedB false (normalizeMemberName x).data = true := by
  rw [normalizeMemberName_data]
  exact pyLowerL_collapsed _ false (collapseWsAux_collapsed _ false)

theorem normalizeMemberName_lower_fixed (x : String) :
    pyLowerL (normalizeMemberName x).data = (normalizeMemberName x).data := by
  rw [normalizeMemberName_data]
  exact pyLowerL_idem _

/-- Claim C6 (amended): member-name normalization is idempotent on
every input whose normalized form does not itself end in a possessive
suffix (`'s`/`’s`) or in whitespace.  (The unconditional claim fails:
stripping removes only one possessive suffix per call, and removing it
can expose trailing whitespace, see the counterexample.) -/
theorem normalize_member_name_idempotent_amended (x : String)
    (h1 : endsApostropheS (normalizeMemberName x).data = false)
    (h2 : endsCurlyS (normalizeMemberName x).data = false)
    (h3 : endsWsL (normalizeMemberName x).data = false) :
    normalizeMemberName (normalizeMemberName x) = normalizeMemberName x := by
  apply String.ext
  rw [normalizeMemberName_data (normalizeMemberName x)]
  unfold pyStripL
  rw [stripLeadL_fixed _ (normalizeMemberName_noLead x),
      stripTrailL_fixed _ h3,
      subPossessiveL_fixed _ h1 h2]
  have hcol : collapseWsL (normalizeMemberName x).data = (normalizeMemberName x).data :=
    collapseWsAux_fixed _ false (normalizeMemberName_collapsed x)
  rw [hcol, normalizeMemberName_lower_fixed]

/-- Claim C6 (counterexample): normalization is not idempotent as
stated; a name ending in a doubled possessive is stripped once per
application, so a second application changes the value. -/
theorem normalize_member_name_not_idempotent :
    normalizeMemberName (normalizeMemberName "Bob's's") ≠
      normalizeMemberName "Bob's's" := by decide

/-- Claim C6 (witness): the amended idempotence theorem applied at the
concrete input `"Alice's "`. -/
theorem normalize_member_name_idempotent_amended_witness :
    normalizeMemberName (normalizeMemberName "Alice's ") =
      normalizeMemberName "Alice's " :=
  normalize_member_name_idempotent_amended "Alice's "
    (by decide) (by decide) (by decide)

theorem noLeadWsB_append_suffix (l suf : List Char)
    (hl : noLeadWsB l = true) (hs : noLeadWsB suf = true) :
    noLeadWsB (l ++ suf) = true := by
  cases l with
  | nil => simpa using hs
  | cons c r => simpa [noLeadWsB] using hl

theorem endsWsL_append_s (l : List Char) (a : Char) :
    endsWsL (l ++ [a, 's']) = false := by
  unfold endsWsL
  rw [List.reverse_append]
  rfl

theorem subPossessiveL_append_apostrophe (l : List Char) :
    subPossessiveL (l ++ ['\'', 's']) = l := by
  unfold subPossessiveL
  rw [List.reverse_append]
  simp

theorem subPossessiveL_append_curly (l : List Char) :
    subPossessiveL (l ++ ['’', 's']) = l := by
  unfold subPossessiveL
  rw [List.reverse_append]
  simp

theorem pyStripL_append_possessive (l : List Char) (a : Char)
    (hl : noLeadWsB l = true) (ha : isPySpace a = false) :
    pyStripL (l ++ [a, 's']) = l ++ [a, 's'] := by
  unfold pyStripL
  rw [stripLeadL_fixed _ (noLeadWsB_append_suffix l [a, 's'] hl
        (by simp [noLeadWsB, ha]))]
  exact stripTrailL_fixed _ (endsWsL_append_s l a)

/-- Claim C7 (amended): `_normalize_member_name` strips one trailing
possessive suffix, but only in its exact lowercase spelling (`'s` or
`’s`) and before lowercasing: for every whitespace-trimmed name not
already ending in a possessive suffix, appending either suffix leaves
the normalized form unchanged; `normalize("Alice's ") =
normalize("alice")` holds, while the upper-case suffix of `"Alice'S"`
is not stripped. -/
theorem normalize_strips_possessive_amended (s : String)
    (hlead : noLeadWsB s.data = true) (htrail : endsWsL s.data = false)
    (h1 : endsApostropheS s.data = false) (h2 : endsCurlyS s.data = false) :
    normalizeMemberName (s ++ "'s") = normalizeMemberName s ∧
    normalizeMemberName (s ++ "’s") = normalizeMemberName s ∧
    normalizeMemberName "Alice's " = normalizeMemberName "alice" ∧
    normalizeMemberName "Alice'S" = "alice's" := by
  have hstrip : pyStripL s.data = s.data := by
    unfold pyStripL
    rw [stripLeadL_fixed _ hlead]
    exact stripTrailL_fixed _ htrail
  have hrhs : (normalizeMemberName s).data = pyLowerL (collapseWsL s.data) := by
    rw [normalizeMemberName_data, hstrip, subPossessiveL_fixed _ h1 h2]
  refine ⟨?_, ?_, by decide, by decide⟩
  · apply String.ext
    rw [normalizeMemberName_data, hrhs]
    have hd : (s ++ "'s").data = s.data ++ ['\'', 's'] := by
      simp [String.data_append]
    rw [hd, pyStripL_append_possessive _ _ hlead (by decide),
        subPossessiveL_append_apostrophe]
  · apply String.ext
    rw [normalizeMemberName_data, hrhs]
    have hd : (s ++ "’s").data = s.data ++ ['’', 's'] := by
      simp [String.data_append]
    rw [hd, pyStripL_append_possessive _ _ hlead (by decide),
        subPossessiveL_append_curly]

/-- Claim C7 (counterexample): the possessive suffix is not stripped
case-insensitively — the upper-case suffix survives, so the claimed
equality fails for the casing `"Alice'S"`. -/
theorem normalize_possessive_not_case_insensitive :
    normalizeMemberName "Alice'S" ≠ normalizeMemberName "alice" := by decide

/-- Claim C7 (witness): the amended possessive-stripping theorem
applied at the concrete trimmed name `"Bob"`. -/
theorem normalize_strips_possessive_amended_witness :
    normalizeMemberName ("Bob" ++ "'s") = normalizeMemberName "Bob" ∧
    normalizeMemberName "Alice's " = normalizeMemberName "alice" := by
  have h := normalize_strips_possessive_amended "Bob"
    (by decide) (by decide) (by decide) (by decide)
  exact ⟨h.1, h.2.2.1⟩

/-- Claim C8 (code bug): timestamp parsing is not total.  For the ISO
string `"0001-01-01T00:00:00+01:00"`, `fromisoformat` succeeds with a
timezone, and the subsequent `astimezone` conversion falls below
`datetime.min` and raises `OverflowError`, which the ISO branch (whose
`except` clause names only `ValueError`) lets escape. -/
theorem parse_timestamp_raises_on_offset_underflow :
    parseTimestamp (Val.vStr "0001-01-01T00:00:00+01:00") =
      Except.error PyErr.overflowError := by rfl

/-- Claim C1 (code bug): at a concrete two-match input the rendered
context lines are chronologically sorted while the returned snippet
list stays in original input order, so the snippet list is not "in that
same sorted, truncated order as the rendered context lines". -/
theorem build_context_snippets_keep_input_order :
    (buildContext
      [PyMatch.fromDict [("metadata", Val.vDict [("timestamp", Val.vStr "2024-03-01"),
         ("user_name", Val.vStr "A"), ("text", Val.vStr "alpha")])],
       PyMatch.fromDict [("metadata", Val.vDict [("timestamp", Val.vStr "2024-01-01"),
         ("user_name", Val.vStr "B"), ("text", Val.vStr "beta")])]] 5).toOption.map
        (fun p => (p.1, p.2.map Snippet.text))
      = some ("[2024-01-01] B: beta\n\n[2024-03-01] A: alpha", ["alpha", "beta"]) ∧
    (["alpha", "beta"] : List String) ≠ ["beta", "alpha"] := by
  exact ⟨by rfl, by decide⟩

/-- A concrete collaborator assignment: the recognizer finds "Alice",
the index returns no matches, the similarity scorer returns nothing. -/
def aliceCollab : Collab :=
  { nfkc := id, ents := fun _ => [("Alice", "PERSON")], encode := fun _ => [],
    query := fun _ _ _ => [], chat := fun _ _ => "Answer: ok",
    renderUser := fun _ _ _ _ _ => "" }

/-- A registry containing the single member "Alice Smith". -/
def aliceSt : ServiceState :=
  { known_names_map := [("alice smith", "Alice Smith")],
    first_name_index := [("alice", ["Alice Smith"])],
    closeMatches := fun _ _ => [], topK := 5, systemPrompt := "sys" }

/-- Claim C2 (counterexample): running `get_answer` on a question that
resolves through the first-token index, the `target_name` field of the
`RetrievalResult` constructed by `retrieve` (the normalized filter
`"alice smith"`) differs from the one used at prompt building (the
display name `"Alice Smith"`): the field is mutated in between. -/
theorem retrieval_result_target_name_mutated :
    ((getAnswerT aliceCollab aliceSt "What did Alice say?").constructed.map
        RetrievalResult.target_name) ≠
      ((getAnswerT aliceCollab aliceSt "What did Alice say?").promptStage.map
        RetrievalResult.target_name) := by decide

theorem parseQuestionLog_ner (c : Collab) (q : String) :
    ∀ e ∈ (parseQuestionLog c q).2, e.isNer = true := by
  unfold parseQuestionLog
  by_cases h : (pyStripStr (normalizeQuestion c q) == "") = true
  · simp [h]
  · simp [h, CallEvent.isNer]

/-- Claim C2 (amended): on the generation path of `get_answer`, every
field of the `RetrievalResult` except `target_name` is carried
unchanged from its construction by `retrieve` to prompt building;
`target_name` alone is overwritten with the resolution's display name
when that name is truthy. -/
theorem retrieval_result_fields_except_target_name (c : Collab)
    (st : ServiceState) (q nq : String) (dn : Option String)
    (log rlog : List CallEvent) (res : MemberResolution) (r : RetrievalResult)
    (hp : parseQuestionLog c q = (Except.ok (nq, dn), log))
    (hres : resolveMemberName st dn = res)
    (he : res.error.getD "" = "")
    (hd : res.display_name.getD "" ≠ "")
    (hr : retrieveLog c st nq res.normalized_filter = (Except.ok r, rlog)) :
    (getAnswerT c st q).constructed = some r ∧
    (getAnswerT c st q).promptStage =
      some { r with target_name := res.display_name } ∧
    ∀ r', (getAnswerT c st q).promptStage = some r' →
      r'.question = r.question ∧ r'.context = r.context ∧
      r'.matchList = r.matchList ∧ r'.snippets = r.snippets ∧
      r'.metadata_filter = r.metadata_filter ∧ r'.top_k = r.top_k ∧
      r'.target_name = res.display_name := by
  have hmain : getAnswerT c st q =
      ⟨Except.ok (extractFinalAnswer (c.chat st.systemPrompt
          (renderUserContent c { r with target_name := res.display_name }))),
       log ++ rlog ++ [CallEvent.groqCall
          (renderUserContent c { r with target_name := res.display_name })],
       some r, some { r with target_name := res.display_name }⟩ := by
    unfold getAnswerT
    rw [hp]
    simp only [hres, he, hr, hd]
    simp [hd]
  refine ⟨by rw [hmain], by rw [hmain], ?_⟩
  intro r' hr'
  rw [hmain] at hr'
  simp only [Option.some.injEq] at hr'
  subst hr'
  exact ⟨rfl, rfl, rfl, rfl, rfl, rfl, rfl⟩

/-- Claim C2 (witness): the field-preservation theorem applied to the
concrete service, exhibiting the constructed and prompt-stage
retrieval results. -/
theorem retrieval_result_fields_except_target_name_witness :
    (getAnswerT aliceCollab aliceSt "What did Alice say?").constructed =
      some ⟨"What did Alice say?", "", [], [], some "alice smith",
        some (MetadataFilter.conj [FilterClause.eqNormalized "alice smith",
          FilterClause.inTokens "alice", FilterClause.inTokens "smith"]), 5⟩ ∧
    (getAnswerT aliceCollab aliceSt "What did Alice say?").promptStage =
      some ⟨"What did Alice say?", "", [], [], some "Alice Smith",
        some (MetadataFilter.conj [FilterClause.eqNormalized "alice smith",
          FilterClause.inTokens "alice", FilterClause.inTokens "smith"]), 5⟩ := by
  have h := retrieval_result_fields_except_target_name aliceCollab aliceSt
    "What did Alice say?" "What did Alice say?" (some "Alice")
    [CallEvent.nerCall "What did Alice say?"]
    [CallEvent.nerCall "What did Alice say?",
     CallEvent.encodeCall "What did Alice say?",
     CallEvent.queryCall 20
       (some (MetadataFilter.conj [FilterClause.eqNormalized "alice smith",
         FilterClause.inTokens "alice", FilterClause.inTokens "smith"]))]
    ⟨some "Alice Smith", some "alice smith", none⟩
    ⟨"What did Alice say?", "", [], [], some "alice smith",
      some (MetadataFilter.conj [FilterClause.eqNormalized "alice smith",
        FilterClause.inTokens "alice", FilterClause.inTokens "smith"]), 5⟩
    rfl rfl rfl (by decide) rfl
  exact ⟨h.1, h.2.1⟩

/-- Claim C4: when name resolution produces a (truthy) error message,
`get_answer` returns that message directly, and its collaborator call
list contains only the NER invocation made while parsing — no
embedding, vector-search or chat-completion call occurs. -/
theorem get_answer_short_circuits_on_unknown (c : Collab)
    (st : ServiceState) (q nq msg : String) (dn : Option String)
    (log : List CallEvent)
    (hp : parseQuestionLog c q = (Except.ok (nq, dn), log))
    (he : (resolveMemberName st dn).error = some msg)
    (hm : msg ≠ "") :
    getAnswerT c st q = ⟨Except.ok msg, log, none, none⟩ ∧
    ∀ e ∈ (getAnswerT c st q).calls, e.isNer = true := by
  have hmain : getAnswerT c st q = ⟨Except.ok msg, log, none, none⟩ := by
    unfold getAnswerT
    rw [hp]
    simp [he, hm]
  refine ⟨hmain, ?_⟩
  rw [hmain]
  have h2 := parseQuestionLog_ner c q
  rw [hp] at h2
  exact h2

/-- A registry with two members sharing the first name "Bob", so a bare
"Bob" is ambiguous. -/
def bobSt : ServiceState :=
  { known_names_map := [("alice smith", "Alice Smith"), ("bob adams", "Bob Adams"),
      ("bob brown", "Bob Brown")],
    first_name_index := [("alice", ["Alice Smith"]), ("bob", ["Bob Adams", "Bob Brown"])],
    closeMatches := fun _ _ => [], topK := 5, systemPrompt := "sys" }

/-- A collaborator assignment whose recognizer finds "Bob". -/
def bobCollab : Collab :=
  { nfkc := id, ents := fun _ => [("Bob", "PERSON")], encode := fun _ => [],
    query := fun _ _ _ => [], chat := fun _ _ => "x",
    renderUser := fun _ _ _ _ _ => "" }

/-- Claim C4 (witness): the short-circuit theorem applied to the
ambiguous question "What did Bob say?": the resolution message comes
back and the only recorded call is the NER one. -/
theorem get_answer_short_circuits_on_unknown_witness :
    getAnswerT bobCollab bobSt "What did Bob say?" =
      ⟨Except.ok "Enter a valid name. No close matches found.",
       [CallEvent.nerCall "What did Bob say?"], none, none⟩ :=
  (get_answer_short_circuits_on_unknown bobCollab bobSt "What did Bob say?"
    "What did Bob say?" "Enter a valid name. No close matches found."
    (some "Bob") [CallEvent.nerCall "What did Bob say?"]
    rfl rfl (by decide)).1

/-- Claim C3: for a non-empty candidate against a non-empty registry,
resolution proceeds in tiers — an exact normalized-key match returns
that key's display name; otherwise an unambiguous first-token match
returns the associated display name with its normalization; otherwise
(no token, or zero or several first-token associations) resolution
fails with at most five similarity-ranked suggestions and the fixed
error-message template. -/
theorem name_resolution_tiers (st : ServiceState) (name : String)
    (hn : name ≠ "") (hreg : st.known_names_map ≠ [])
    (hcm : ∀ s cands, (st.closeMatches s cands).length ≤ 5) :
    (∀ d, lookupStr st.known_names_map (normalizeMemberName name) = some d →
      resolveMemberName st (some name) =
        ⟨some d, some (normalizeMemberName name), none⟩) ∧
    (lookupStr st.known_names_map (normalizeMemberName name) = none →
      ∀ ft rest d, splitWsStr (normalizeMemberName name) = ft :: rest →
        firstIndexGet st.first_name_index ft = [d] →
        resolveMemberName st (some name) =
          ⟨some d, some (normalizeMemberName d), none⟩) ∧
    (lookupStr st.known_names_map (normalizeMemberName name) = none →
      (splitWsStr (normalizeMemberName name) = [] ∨
       ∃ ft rest, splitWsStr (normalizeMemberName name) = ft :: rest ∧
         (firstIndexGet st.first_name_index ft).length ≠ 1) →
      resolveMemberName st (some name) =
        ⟨none, none, some (formatInvalidNameMessage
          (suggestNames st (normalizeMemberName name)))⟩ ∧
      (suggestNames st (normalizeMemberName name)).length ≤ 5 ∧
      (∀ sg, suggestNames st (normalizeMemberName name) = sg →
        (sg = [] → formatInvalidNameMessage sg =
          "Enter a valid name. No close matches found.") ∧
        (sg ≠ [] → formatInvalidNameMessage sg =
          "Enter a valid name. Closest matches: " ++
            String.intercalate ", " sg))) := by
  have hn' : (name == "") = false := by simp [hn]
  have hreg' : st.known_names_map.isEmpty = false := by
    cases h : st.known_names_map with
    | nil => exact absurd h hreg
    | cons a tl => rfl
  refine ⟨?_, ?_, ?_⟩
  · intro d hd
    unfold resolveMemberName
    simp [hn', hreg', hd]
  · intro hnone ft rest d hsplit hidx
    unfold resolveMemberName
    simp [hn', hreg', hnone, hsplit, hidx]
  · intro hnone hcase
    have hlenb : (suggestNames st (normalizeMemberName name)).length ≤ 5 := by
      unfold suggestNames
      by_cases h : (normalizeMemberName name == "" ||
          st.known_names_map.isEmpty) = true
      · simp [h]
      · simp only [h, if_false, Bool.false_eq_true, List.length_map]
        exact hcm _ _
    have hres : resolveMemberName st (some name) =
        ⟨none, none, some (formatInvalidNameMessage
          (suggestNames st (normalizeMemberName name)))⟩ := by
      rcases hcase with hempty | ⟨ft, rest, hsplit, hlen⟩
      · unfold resolveMemberName
        simp [hn', hreg', hnone, hempty]
      · cases hidx : firstIndexGet st.first_name_index ft with
        | nil =>
          unfold resolveMemberName
          simp [hn', hreg', hnone, hsplit, hidx]
        | cons a tl =>
          cases tl with
          | nil => exact absurd (by rw [hidx]; rfl) hlen
          | cons b tl2 =>
            unfold resolveMemberName
            simp [hn', hreg', hnone, hsplit, hidx]
    refine ⟨hres, hlenb, ?_⟩
    intro sg _
    constructor
    · intro hsg
      subst hsg
      rfl
    · intro hsg
      unfold formatInvalidNameMessage
      have : sg.isEmpty = false := by
        cases sg with
        | nil => exact absurd rfl hsg
        | cons a tl => rfl
      simp [this]

/-- Claim C3 (witness): the exact-match tier applied to the concrete
registry: the possessive candidate "Alice Smith's" normalizes onto the
registry key and resolves to the registry display name. -/
theorem name_resolution_tiers_witness :
    resolveMemberName aliceSt (some "Alice Smith's") =
      ⟨some "Alice Smith", some "alice smith", none⟩ :=
  (name_resolution_tiers aliceSt "Alice Smith's" (by decide) (by decide)
    (fun _ _ => by simp [aliceSt])).1 "Alice Smith" rfl

/-- Claim C5: the metadata-filter builder returns no filter for an
absent or empty target; otherwise its clause list is one equality
clause on the non-empty normalized name plus one membership clause per
token, and the result is no filter for zero clauses, the single clause
unwrapped for one, and an explicit `$and` conjunction for two or more. -/
theorem metadata_filter_wrapping (t : String) (h : t ≠ "") :
    buildMetadataFilter none = none ∧
    buildMetadataFilter (some "") = none ∧
    filterClauses t =
      (if normalizedTarget t ≠ "" then
        [FilterClause.eqNormalized (normalizedTarget t)] else []) ++
      (tokenizeName (normalizedTarget t)).map FilterClause.inTokens ∧
    (filterClauses t = [] → buildMetadataFilter (some t) = none) ∧
    (∀ c, filterClauses t = [c] →
      buildMetadataFilter (some t) = some (MetadataFilter.single c)) ∧
    (∀ c1 c2 cs, filterClauses t = c1 :: c2 :: cs →
      buildMetadataFilter (some t) =
        some (MetadataFilter.conj (filterClauses t))) := by
  have h' : (t == "") = false := by simp [h]
  refine ⟨rfl, rfl, rfl, ?_, ?_, ?_⟩
  · intro h0
    unfold buildMetadataFilter
    simp only [h', Bool.false_eq_true, if_false, h0]
  · intro c h1
    unfold buildMetadataFilter
    simp only [h', Bool.false_eq_true, if_false, h1]
  · intro c1 c2 cs h2
    unfold buildMetadataFilter
    simp only [h', Bool.false_eq_true, if_false, h2]

/-- Claim C5 (witness): the wrapping theorem applied at the two-token
target "Alice Smith" (three clauses, hence an `$and`), together with
the evaluated clause list. -/
theorem metadata_filter_wrapping_witness :
    buildMetadataFilter (some "Alice Smith") =
      some (MetadataFilter.conj [FilterClause.eqNormalized "alice smith",
        FilterClause.inTokens "alice", FilterClause.inTokens "smith"]) := by
  have h := (metadata_filter_wrapping "Alice Smith" (by decide)).2.2.2.2.2
    (FilterClause.eqNormalized "alice smith") (FilterClause.inTokens "alice")
    [FilterClause.inTokens "smith"] rfl
  exact h.trans (by rfl)

theorem pairwise_getLast_max (l : List Nat)
    (hp : List.Pairwise (fun a b => a < b) l) (m : Nat)
    (hm : l.getLast? = some m) : ∀ x ∈ l, x ≤ m := by
  rcases List.getLast?_eq_some_iff.mp hm with ⟨ys, rfl⟩
  intro x hx
  rcases List.mem_append.mp hx with hx | hx
  · have hsplit := List.pairwise_append.mp hp
    exact le_of_lt (hsplit.2.2 x hx m (by simp))
  · simp only [List.mem_singleton] at hx
    omega

theorem rfindL_occurrence (hay needle : List Char) (i : Nat)
    (h : rfindL hay needle = some i) :
    needle.isPrefixOf (hay.drop i) = true := by
  have hmem := List.mem_of_mem_getLast? h
  exact (List.mem_filter.mp hmem).2

theorem rfindL_greatest (hay needle : List Char) (i : Nat) (hne : needle ≠ [])
    (h : rfindL hay needle = some i) :
    ∀ j, needle.isPrefixOf (hay.drop j) = true → j ≤ i := by
  intro j hj
  by_cases hjl : j ≤ hay.length
  · have hmem : j ∈ (List.range (hay.length + 1)).filter
        (fun k => needle.isPrefixOf (hay.drop k)) :=
      List.mem_filter.mpr ⟨List.mem_range.mpr (by omega), hj⟩
    exact pairwise_getLast_max _
      (List.Pairwise.filter _ (List.pairwise_lt_range _)) i h j hmem
  · exfalso
    have hd : hay.drop j = [] := List.drop_eq_nil_of_le (by omega)
    rw [hd] at hj
    cases needle with
    | nil => exact hne rfl
    | cons c tl => simp [List.isPrefixOf] at hj

theorem rfindL_none_of_no_occurrence (hay needle : List Char)
    (h : ∀ j, needle.isPrefixOf (hay.drop j) = false) :
    rfindL hay needle = none := by
  unfold rfindL
  have hf : (List.range (hay.length + 1)).filter
      (fun k => needle.isPrefixOf (hay.drop k)) = [] :=
    List.filter_eq_nil_iff.mpr (fun a _ => by simp [h a])
  rw [hf]
  rfl

/-- Claim C9 (amended): answer extraction returns the trimmed remainder
after the last case-insensitive occurrence of `"answer:"` whenever that
remainder is non-empty after trimming; when the marker is absent — and
also when the remainder trims to empty, which the original claim did
not allow — it returns the full trimmed response. -/
theorem extract_final_answer_amended (raw : String) :
    ((∀ j, "answer:".data.isPrefixOf ((pyLowerL raw.data).drop j) = false) →
      extractFinalAnswer raw = pyStripStr raw) ∧
    (∀ i, rfindL (pyLowerL raw.data) "answer:".data = some i →
      "answer:".data.isPrefixOf ((pyLowerL raw.data).drop i) = true ∧
      (∀ j, "answer:".data.isPrefixOf ((pyLowerL raw.data).drop j) = true →
        j ≤ i) ∧
      (pyStripStr (String.mk (raw.data.drop (i + 7))) ≠ "" →
        extractFinalAnswer raw =
          pyStripStr (String.mk (raw.data.drop (i + 7)))) ∧
      (pyStripStr (String.mk (raw.data.drop (i + 7))) = "" →
        extractFinalAnswer raw = pyStripStr raw)) := by
  constructor
  · intro hno
    have hn := rfindL_none_of_no_occurrence _ _ hno
    unfold extractFinalAnswer
    by_cases hraw : (raw == "") = true
    · have : raw = "" := by simpa using hraw
      subst this
      rfl
    · simp only [hraw, Bool.false_eq_true, if_false, hn]
  · intro i hi
    by_cases hraw : (raw == "") = true
    · have hre : raw = "" := by simpa using hraw
      subst hre
      have : rfindL (pyLowerL ("" : String).data) "answer:".data = none := rfl
      rw [this] at hi
      cases hi
    · refine ⟨rfindL_occurrence _ _ _ hi,
        rfindL_greatest _ _ _ (by decide) hi, ?_, ?_⟩
      · intro hne
        have hne' : (pyStripStr (String.mk (raw.data.drop (i + 7))) != "") = true := by
          simpa using hne
        unfold extractFinalAnswer
        simp only [hraw, Bool.false_eq_true, if_false, hi, hne', if_true]
      · intro heq
        have hne' : (pyStripStr (String.mk (raw.data.drop (i + 7))) != "") = false := by
          simp [heq]
        unfold extractFinalAnswer
        simp only [hraw, Bool.false_eq_true, if_false, hi, hne']

/-- Claim C9 (counterexample): on the raw response `"Answer: "` the
marker occurs (at index 0) but the remainder trims to empty, and the
code returns the full trimmed response `"Answer:"` rather than the
trimmed remainder `""` the claim requires. -/
theorem extract_final_answer_empty_remainder :
    rfindL (pyLowerL "Answer: ".data) "answer:".data = some 0 ∧
    extractFinalAnswer "Answer: " ≠
      pyStripStr (String.mk ("Answer: ".data.drop (0 + 7))) := by
  exact ⟨by rfl, by decide⟩

/-- Claim C9 (witness): the amended extraction theorem applied to the
response `"Reasoning: x\nAnswer: Paris"`, whose last marker occurrence
is at index 13, yielding `"Paris"`. -/
theorem extract_final_answer_amended_witness :
    extractFinalAnswer "Reasoning: x\nAnswer: Paris" = "Paris" := by
  have h := ((extract_final_answer_amended "Reasoning: x\nAnswer: Paris").2 13
    (by rfl)).2.2.1 (by decide)
  exact h.trans (by decide)

theorem buildEntries_cons_dict (md : List (String × Val)) (s : String)
    (rest : List PyMatch) (idx : Nat) (u : Option Int)
    (hx : textOf md = Val.vStr s) (hs : pyStripStr s ≠ "")
    (hp : parseTimestamp (dictGet md "timestamp") = Except.ok u) :
    buildEntries (PyMatch.fromDict [("metadata", Val.vDict md)] :: rest) idx =
      (buildEntries rest (idx + 1)).map (fun p =>
        (⟨u, idx, timestampLabel (dictGet md "timestamp") ++ displayUser md ++
            ": " ++ pyStripStr s⟩ :: p.1,
         ⟨dictGet md "timestamp", u, dictGet md "user_name", pyStripStr s⟩ :: p.2)) := by
  have hmm : matchMetadata (PyMatch.fromDict [("metadata", Val.vDict md)]) =
      Val.vDict md := rfl
  have hs' : (pyStripStr s == "") = false := by simpa using hs
  simp only [buildEntries, hmm, hx, hs', Bool.false_eq_true, if_false, hp]
  cases hrest : buildEntries rest (idx + 1) with
  | error e => rfl
  | ok p => rfl

/-- Claim C10: a match whose metadata carries the integer timestamp `0`
(and non-blank text) parses to the POSIX epoch, so against any second
match whose timestamp parses to a strictly later instant (or fails to
parse) it is rendered first in the context, even from a later input
position; yet because the raw value `0` is falsy, its rendered line
carries no `[{raw}] ` label. -/
theorem epoch_zero_sorts_first_without_label (md0 md1 : List (String × Val))
    (s0 s1 : String) (u : Option Int)
    (ht0 : dictGet md0 "timestamp" = Val.vInt 0)
    (hx0 : textOf md0 = Val.vStr s0) (hs0 : pyStripStr s0 ≠ "")
    (hx1 : textOf md1 = Val.vStr s1) (hs1 : pyStripStr s1 ≠ "")
    (hp1 : parseTimestamp (dictGet md1 "timestamp") = Except.ok u)
    (hu : ∀ t, u = some t → 0 < t) :
    parseTimestamp (Val.vInt 0) = Except.ok (some (0 : Int)) ∧
    timestampLabel (Val.vInt 0) = "" ∧
    buildContext
      [PyMatch.fromDict [("metadata", Val.vDict md1)],
       PyMatch.fromDict [("metadata", Val.vDict md0)]] 5 =
      Except.ok
        ((displayUser md0 ++ ": " ++ pyStripStr s0) ++ "\n\n" ++
           (timestampLabel (dictGet md1 "timestamp") ++ displayUser md1 ++
             ": " ++ pyStripStr s1),
         [⟨dictGet md1 "timestamp", u, dictGet md1 "user_name", pyStripStr s1⟩,
          ⟨Val.vInt 0, some 0, dictGet md0 "user_name", pyStripStr s0⟩]) := by
  have hz : parseTimestamp (Val.vInt 0) = Except.ok (some (0 : Int)) := by rfl
  have hlbl : timestampLabel (Val.vInt 0) = "" := rfl
  refine ⟨hz, hlbl, ?_⟩
  have hp0 : parseTimestamp (dictGet md0 "timestamp") = Except.ok (some (0 : Int)) := by
    rw [ht0]; exact hz
  have hb := buildEntries_cons_dict md1 s1
    [PyMatch.fromDict [("metadata", Val.vDict md0)]] 0 u hx1 hs1 hp1
  have hb0 := buildEntries_cons_dict md0 s0 [] 1 (some 0) hx0 hs0 hp0
  have hnil : buildEntries ([] : List PyMatch) 2 = Except.ok ([], []) := rfl
  rw [hnil] at hb0
  simp only [Except.map] at hb0
  rw [hb0] at hb
  simp only [Except.map] at hb
  rw [ht0] at hb
  have hk1 : (0 : Int) < u.getD dtMaxUs := by
    cases u with
    | none => decide
    | some t => simpa using hu t rfl
  have hkey : keyLE
      ⟨u, 0, timestampLabel (dictGet md1 "timestamp") ++ displayUser md1 ++
        ": " ++ pyStripStr s1⟩
      ⟨some 0, 1, timestampLabel (Val.vInt 0) ++ displayUser md0 ++
        ": " ++ pyStripStr s0⟩ = false := by
    simp only [keyLE, entryKey, Option.getD_some, Bool.or_eq_false_iff,
      Bool.and_eq_false_iff]
    constructor
    · exact decide_eq_false (by omega)
    · left
      rw [beq_eq_false_iff_ne]
      omega
  unfold buildContext
  rw [hb]
  simp only [sortEntries, insertSorted, hkey, Bool.false_eq_true, if_false]
  rfl

/-- Claim C10 (witness): the epoch-zero theorem applied to two concrete
matches: the later-positioned zero-timestamp match renders first and
without a bracketed label. -/
theorem epoch_zero_sorts_first_without_label_witness :
    buildContext
      [PyMatch.fromDict [("metadata", Val.vDict [("timestamp", Val.vStr "2024-03-01"),
         ("user_name", Val.vStr "A"), ("text", Val.vStr "alpha")])],
       PyMatch.fromDict [("metadata", Val.vDict [("timestamp", Val.vInt 0),
         ("user_name", Val.vStr "C"), ("text", Val.vStr "gamma")])]] 5 =
      Except.ok ("C: gamma\n\n[2024-03-01] A: alpha",
        [⟨Val.vStr "2024-03-01", some 1709251200000000, Val.vStr "A", "alpha"⟩,
         ⟨Val.vInt 0, some 0, Val.vStr "C", "gamma"⟩]) := by
  have h := (epoch_zero_sorts_first_without_label
    [("timestamp", Val.vInt 0), ("user_name", Val.vStr "C"), ("text", Val.vStr "gamma")]
    [("timestamp", Val.vStr "2024-03-01"), ("user_name", Val.vStr "A"),
      ("text", Val.vStr "alpha")]
    "gamma" "alpha" (some 1709251200000000)
    rfl rfl (by decide) rfl (by decide) rfl
    (fun t ht => by injection ht with hh; omega)).2.2
  exact h
